import Mathlib

/-!
Verification of the PIN-indexed metadata store of the `File-transfer`
repository (`src/app.py`), a Streamlit app that shares uploaded files under
random 4-digit PINs with a 24-hour expiry.

The Python source is shallowly embedded:
* the blob store (files written under `STORAGE_DIR`) is a finite map
  `path ↦ bytes`, bytes being `List Nat`;
* the persisted metadata table (`file_metadata.json`) is an association list
  `pin ↦ FileRecord`; Python `dict` keys are unique, which appears as a
  `Nodup` hypothesis on the key list where a theorem needs it;
* `datetime` instants are integers counting microseconds (Python datetime
  arithmetic is exact at microsecond resolution); `timedelta(hours=24)`
  is `86400000000` microseconds;
* `random.randint(1000, 9999)` is driven by an arbitrary stream of naturals,
  each draw mapped into the inclusive range `[1000, 9999]`;
* the unbounded `while True` retry loop of `generate_pin` is given explicit
  fuel; returning `none` means the loop has not terminated within the given
  bound (for any bound).
-/

/-! ## Decimal digit strings

`f"{n}"` in Python renders a nonnegative int in decimal with no padding;
`"%02d"`-style zero padding appears in `datetime.isoformat`. Both are
modelled on `List Char`. -/

/-- The decimal digit character for `d < 10` (as produced by Python's int
formatting); an arbitrary placeholder otherwise. -/
def decChar (d : Nat) : Char :=
  match d with
  | 0 => '0' | 1 => '1' | 2 => '2' | 3 => '3' | 4 => '4'
  | 5 => '5' | 6 => '6' | 7 => '7' | 8 => '8' | 9 => '9'
  | _ => '*'

/-- Numeric value of a decimal digit character, as `int(...)`/`fromisoformat`
read it. -/
def charVal (c : Char) : Nat := c.toNat - 48

/-- Read a digit string back as a number (most significant digit first). -/
def parseNum (cs : List Char) : Nat :=
  cs.foldl (fun a c => a * 10 + charVal c) 0

/-- Rendering of `n` in exactly `w` decimal digits, zero padded: Python's
`"%0wd" % n` for `n < 10^w`. -/
def padNum : Nat → Nat → List Char
  | 0, _ => []
  | w + 1, n => padNum w (n / 10) ++ [decChar (n % 10)]

/-- Unpadded decimal rendering with explicit fuel (the fuel `n + 1` used by
`decimalRepr` always suffices). -/
def natDigitsAux : Nat → Nat → List Char
  | 0, _ => []
  | fuel + 1, n => if n < 10 then [decChar n] else natDigitsAux fuel (n / 10) ++ [decChar (n % 10)]

/-- Python's `f"{n}"` for a nonnegative int: unpadded decimal rendering. -/
def decimalRepr (n : Nat) : String := ⟨natDigitsAux (n + 1) n⟩

theorem charVal_decChar {d : Nat} (h : d < 10) : charVal (decChar d) = d := by
  interval_cases d <;> rfl

theorem decChar_isDigit {d : Nat} (h : d < 10) : (decChar d).isDigit = true := by
  interval_cases d <;> rfl

theorem decChar_ne_zero_char {d : Nat} (h1 : 1 ≤ d) (h2 : d < 10) : decChar d ≠ '0' := by
  interval_cases d <;> decide

theorem padNum_length (w n : Nat) : (padNum w n).length = w := by
  induction w generalizing n with
  | zero => rfl
  | succ w ih => simp [padNum, ih]

theorem parseNum_append_digit (cs : List Char) (c : Char) :
    parseNum (cs ++ [c]) = parseNum cs * 10 + charVal c := by
  simp [parseNum, List.foldl_append]

theorem parseNum_padNum {w n : Nat} (h : n < 10 ^ w) : parseNum (padNum w n) = n := by
  induction w generalizing n with
  | zero =>
    have : n = 0 := by simpa using h
    simp [this, padNum, parseNum]
  | succ w ih =>
    have hdiv : n / 10 < 10 ^ w := by
      have hn : n < 10 ^ w * 10 := by rw [pow_succ] at h; exact h
      exact (Nat.div_lt_iff_lt_mul (by norm_num : 0 < 10)).2 hn
    have hm : n % 10 < 10 := Nat.mod_lt _ (by norm_num)
    rw [padNum, parseNum_append_digit, ih hdiv, charVal_decChar hm]
    omega

theorem natDigitsAux_lt10 (fuel n : Nat) (h : n < 10) :
    natDigitsAux (fuel + 1) n = [decChar n] := by
  simp [natDigitsAux, h]

theorem natDigitsAux_ge10 (fuel n : Nat) (h : 10 ≤ n) :
    natDigitsAux (fuel + 1) n = natDigitsAux fuel (n / 10) ++ [decChar (n % 10)] := by
  simp [natDigitsAux, Nat.not_lt.2 h]

theorem natDigitsAux_step (fuel n : Nat) (hf : 1 ≤ fuel) (h : 10 ≤ n) :
    natDigitsAux fuel n = natDigitsAux (fuel - 1) (n / 10) ++ [decChar (n % 10)] := by
  obtain ⟨f, rfl⟩ : ∃ f, fuel = f + 1 := ⟨fuel - 1, by omega⟩
  simpa using natDigitsAux_ge10 f n h

theorem natDigitsAux_base (fuel n : Nat) (hf : 1 ≤ fuel) (h : n < 10) :
    natDigitsAux fuel n = [decChar n] := by
  obtain ⟨f, rfl⟩ : ∃ f, fuel = f + 1 := ⟨fuel - 1, by omega⟩
  exact natDigitsAux_lt10 f n h

/-- Explicit digit list of a four-digit number. -/
theorem decimalRepr_four {n : Nat} (h1 : 1000 ≤ n) (h2 : n ≤ 9999) :
    (decimalRepr n).data =
      [decChar (n / 1000), decChar (n / 100 % 10), decChar (n / 10 % 10), decChar (n % 10)] := by
  have h10 : 10 ≤ n := by omega
  have hd1 : 10 ≤ n / 10 := by omega
  have hd2 : 10 ≤ n / 10 / 10 := by omega
  have hd3 : n / 10 / 10 / 10 < 10 := by omega
  have : (decimalRepr n).data = natDigitsAux (n + 1) n := rfl
  rw [this, natDigitsAux_step (n + 1) n (by omega) h10]
  simp only [Nat.add_sub_cancel]
  rw [natDigitsAux_step n (n / 10) (by omega) hd1,
    natDigitsAux_step (n - 1) (n / 10 / 10) (by omega) hd2,
    natDigitsAux_base (n - 1 - 1) (n / 10 / 10 / 10) (by omega) hd3]
  have e1000 : n / 10 / 10 / 10 = n / 1000 := by omega
  have e100 : n / 10 / 10 = n / 100 := by omega
  rw [e1000, e100]
  simp

theorem decimalRepr_four_length {n : Nat} (h1 : 1000 ≤ n) (h2 : n ≤ 9999) :
    (decimalRepr n).data.length = 4 := by
  rw [decimalRepr_four h1 h2]; rfl

theorem decimalRepr_four_digits {n : Nat} (h1 : 1000 ≤ n) (h2 : n ≤ 9999) :
    (decimalRepr n).data.all Char.isDigit = true := by
  rw [decimalRepr_four h1 h2]
  have m1 : n / 1000 < 10 := by omega
  have m2 : n / 100 % 10 < 10 := Nat.mod_lt _ (by norm_num)
  have m3 : n / 10 % 10 < 10 := Nat.mod_lt _ (by norm_num)
  have m4 : n % 10 < 10 := Nat.mod_lt _ (by norm_num)
  simp [List.all_cons, decChar_isDigit m1, decChar_isDigit m2, decChar_isDigit m3,
    decChar_isDigit m4]

theorem decimalRepr_four_head {n : Nat} (h1 : 1000 ≤ n) (h2 : n ≤ 9999) :
    decimalRepr n ≠ "0000" := by
  intro hEq
  have hdata : (decimalRepr n).data = "0000".data := by rw [hEq]
  rw [decimalRepr_four h1 h2] at hdata
  have hlead : decChar (n / 1000) = '0' := by
    have : "0000".data = ['0', '0', '0', '0'] := rfl
    rw [this] at hdata
    exact (List.cons.injEq _ _ _ _ ▸ hdata).1
  have hge : 1 ≤ n / 1000 := by omega
  have hlt : n / 1000 < 10 := by omega
  exact decChar_ne_zero_char hge hlt hlead

/-! ## Data model

`FileRecord` embeds the metadata dictionary stored per PIN (`app.py`
lines 81–87): `filename`, `filepath`, `size`, `upload_time`, `type`
(named `ftype` here, `type` being reserved). Instants are microseconds
as integers. -/

/-- One metadata entry, as built at `app.py` lines 81–87. -/
structure FileRecord where
  filename : String
  filepath : String
  size : Nat
  upload_time : Int
  ftype : Option String
deriving DecidableEq

/-- The state the app persists: the blob store (files under `STORAGE_DIR`,
path ↦ bytes) and the metadata table (`file_metadata.json`, pin ↦ record). -/
structure SvcState where
  fs : List (String × List Nat)
  meta : List (String × FileRecord)
deriving DecidableEq

/-- A Streamlit `UploadedFile`: `.name`, `.getvalue()`, `.size`, `.type`. -/
structure UploadedFile where
  name : String
  content : List Nat
  size : Nat
  ftype : Option String
deriving DecidableEq

/-- Python `dict` update `d[k] = v` (and file overwrite on the blob store),
seen as a map: the new binding shadows and replaces any old one. -/
def dictInsert {α : Type} (k : String) (v : α) (l : List (String × α)) :
    List (String × α) :=
  (k, v) :: l.eraseP (fun e => e.1 == k)

theorem lookup_dictInsert_self {α : Type} (k : String) (v : α) (l : List (String × α)) :
    List.lookup k (dictInsert k v l) = some v := by
  simp [dictInsert, List.lookup]

/-! ## PIN allocator (`generate_pin`, `app.py` lines 60–66)

```python
def generate_pin():
    metadata = load_file_metadata()
    while True:
        pin = f"{random.randint(1000, 9999)}"
        if pin not in metadata:  # Ensure PIN is unique
            return pin
```

The RNG is an arbitrary stream of naturals; each draw is mapped into
`randint`'s inclusive range `[1000, 9999]`. The `while True` loop carries
fuel: `none` means it has not returned within that many iterations. -/

/-- One draw of `random.randint(1000, 9999)`: a value in the inclusive
range `[1000, 9999]`, every value reachable. -/
def randintCandidate (r : Nat) : Nat := 1000 + r % 9000

/-- The loop of `generate_pin` on an already-loaded table, bounded by fuel. -/
def generate_pin (stream : Nat → Nat) (metadata : List (String × FileRecord)) :
    Nat → Option String
  | 0 => none
  | fuel + 1 =>
    let pin := decimalRepr (randintCandidate (stream 0))
    if (List.lookup pin metadata).isNone then some pin
    else generate_pin (fun i => stream (i + 1)) metadata fuel

/-- The set of strings `f"{random.randint(1000, 9999)}"` (line 64) can
produce: the decimal renderings of 1000–9999. -/
def pinCandidateSpace : List String := (List.range' 1000 9000).map decimalRepr

theorem randintCandidate_lb (r : Nat) : 1000 ≤ randintCandidate r := by
  simp [randintCandidate]

theorem randintCandidate_ub (r : Nat) : randintCandidate r ≤ 9999 := by
  have : r % 9000 < 9000 := Nat.mod_lt _ (by norm_num)
  simp [randintCandidate]; omega

/-- Soundness of the allocator: a returned PIN is the decimal rendering of
some number in `randint`'s range, has exactly 4 ASCII-digit characters, and
was absent from the table the allocator loaded. -/
theorem generate_pin_sound (stream : Nat → Nat) (metadata : List (String × FileRecord))
    (fuel : Nat) (pin : String) (h : generate_pin stream metadata fuel = some pin) :
    (∃ n, 1000 ≤ n ∧ n ≤ 9999 ∧ pin = decimalRepr n) ∧
      pin.data.length = 4 ∧ pin.data.all Char.isDigit = true ∧
      List.lookup pin metadata = none := by
  induction fuel generalizing stream with
  | zero => simp [generate_pin] at h
  | succ fuel ih =>
    rw [generate_pin] at h
    by_cases hfree :
        (List.lookup (decimalRepr (randintCandidate (stream 0))) metadata).isNone
    · simp only [hfree, if_pos] at h
      obtain rfl : decimalRepr (randintCandidate (stream 0)) = pin := by
        simpa using h
      refine ⟨⟨randintCandidate (stream 0), randintCandidate_lb _, randintCandidate_ub _, rfl⟩,
        decimalRepr_four_length (randintCandidate_lb _) (randintCandidate_ub _),
        decimalRepr_four_digits (randintCandidate_lb _) (randintCandidate_ub _),
        Option.isNone_iff_eq_none.1 hfree⟩
    · simp only [hfree, if_neg, Bool.false_eq_true, not_false_eq_true] at h
      exact ih (fun i => stream (i + 1)) h

/-! ## Upload path (`save_file_with_pin`, `app.py` lines 68–94)

Writes the payload to `STORAGE_DIR/{pin}_{name}`, loads the metadata table,
adds the record for `pin`, saves the table, and returns the blob path. -/

/-- The call `save_file_with_pin(uploaded_file, pin)` at time `now`. -/
def save_file_with_pin (s : SvcState) (file : UploadedFile) (pin : String) (now : Int) :
    SvcState × String :=
  let file_path := pin ++ "_" ++ file.name
  let fs' := dictInsert file_path file.content s.fs
  let metadata := s.meta
  let record : FileRecord :=
    { filename := file.name, filepath := file_path, size := file.size,
      upload_time := now, ftype := file.ftype }
  let meta' := dictInsert pin record metadata
  (⟨fs', meta'⟩, file_path)

/-! ## Download path (tab2, `app.py` lines 278–330)

```python
if len(pin_input) == 4 and pin_input.isdigit():
    file_info = get_file_by_pin(pin_input)
    if file_info:
        if os.path.exists(file_info['filepath']):
            ... read file, offer download ...
        else:
            ... error; del stale metadata entry; save ...
    else:
        ... "Invalid PIN or file has expired" ...
else:
    ... "Please enter a valid 4-digit PIN" ...
```

Python's `str.isdigit()` is Unicode-aware: it is true for any character of
Unicode category `Nd` and for digit-typed characters such as superscripts,
not only for ASCII `0`–`9`. `pyIsDigit` models it on ASCII digits plus
representative non-ASCII digit ranges (Arabic-Indic, extended Arabic-Indic,
Devanagari, fullwidth, superscripts); every listed range is `isdigit`-true
in Python. -/

/-- Python `str.isdigit()` at one character (representative ranges). -/
def pyIsDigit (c : Char) : Bool :=
  c.isDigit
  || (0x660 ≤ c.toNat && c.toNat ≤ 0x669)
  || (0x6F0 ≤ c.toNat && c.toNat ≤ 0x6F9)
  || (0x966 ≤ c.toNat && c.toNat ≤ 0x96F)
  || (0xFF10 ≤ c.toNat && c.toNat ≤ 0xFF19)
  || c.toNat == 0xB2 || c.toNat == 0xB3 || c.toNat == 0xB9
  || c.toNat == 0x2070 || (0x2074 ≤ c.toNat && c.toNat ≤ 0x2079)

/-- Python `s.isdigit()`: false on the empty string, else every character a
digit. -/
def pyStrIsDigit (s : String) : Bool :=
  !s.data.isEmpty && s.data.all pyIsDigit

/-- The guard at line 279: `len(pin_input) == 4 and pin_input.isdigit()`. -/
def pinShapeValid (s : String) : Bool :=
  s.data.length == 4 && pyStrIsDigit s

/-- What the spec calls a PIN of valid shape: exactly 4 ASCII digits. -/
def isFourAsciiDigits (s : String) : Bool :=
  s.data.length == 4 && s.data.all Char.isDigit

/-- User-visible outcome of the download tab. -/
inductive Outcome where
  | found (data : List Nat)
  | notOnDisk
  | unknownPin
  | malformed
deriving DecidableEq

/-- The spec's `Absent`: a well-formed PIN with no usable record (unknown,
expired, or blob missing). -/
def Outcome.isAbsent : Outcome → Bool
  | .notOnDisk => true
  | .unknownPin => true
  | _ => false

/-- An access to the persisted metadata snapshot. -/
inductive StoreOp where
  | loadOp
  | saveOp
deriving DecidableEq

/-- Result of one run of the download tab: the outcome shown, the state left
behind, and the metadata-store accesses performed, in order. -/
structure TabResult where
  outcome : Outcome
  state : SvcState
  storeOps : List StoreOp
deriving DecidableEq

/-- The download tab (lines 278–330) on input `pin_input`. The branch for a
record whose blob is missing reloads the table, deletes the stale entry and
saves (lines 320–324). -/
def download_tab (pin_input : String) (s : SvcState) : TabResult :=
  if pinShapeValid pin_input then
    match List.lookup pin_input s.meta with
    | some file_info =>
      match List.lookup file_info.filepath s.fs with
      | some bytes => ⟨.found bytes, s, [.loadOp]⟩
      | none =>
        let metadata := s.meta
        if (List.lookup pin_input metadata).isSome then
          ⟨.notOnDisk, ⟨s.fs, metadata.eraseP (fun e => e.1 == pin_input)⟩,
            [.loadOp, .loadOp, .saveOp]⟩
        else ⟨.notOnDisk, s, [.loadOp, .loadOp]⟩
    | none => ⟨.unknownPin, s, [.loadOp]⟩
  else ⟨.malformed, s, []⟩

/-! ## Expiry sweep (`cleanup_old_files`, `app.py` lines 101–129)

Loads the table, collects the PINs of records older than 24 hours (strict
`>` against `timedelta(hours=24)`), removes each such record's file from
disk when it exists (a missing file is ignored via `except OSError: pass`),
deletes those PINs from the table, and saves the table back only when at
least one PIN was collected; returns the number of collected PINs. -/

/-- Retention window: 24 hours in microseconds (`timedelta(hours=24)`). -/
def retentionMicros : Int := 86400000000

/-- The expiry test at line 109: `current_time - upload_time > timedelta(hours=24)`. -/
def expired (now : Int) (r : FileRecord) : Bool :=
  decide (retentionMicros < now - r.upload_time)

/-- Result of one `cleanup_old_files()` run: the state left behind, the
returned count, and whether `save_file_metadata` was called. -/
structure CleanupResult where
  state : SvcState
  removed : Nat
  savedTable : Bool
deriving DecidableEq

/-- The call `cleanup_old_files()` at time `now`. -/
def cleanup_old_files (now : Int) (s : SvcState) : CleanupResult :=
  let metadata := s.meta
  let pins_to_remove := (metadata.filter (fun e => expired now e.2)).map Prod.fst
  let expiredPaths := (metadata.filter (fun e => expired now e.2)).map (fun e => e.2.filepath)
  let fs' := s.fs.filter (fun b => !(expiredPaths.contains b.1))
  let meta' := pins_to_remove.foldl (fun m pin => m.eraseP (fun e => e.1 == pin)) metadata
  if pins_to_remove.isEmpty then ⟨⟨fs', s.meta⟩, pins_to_remove.length, false⟩
  else ⟨⟨fs', meta'⟩, pins_to_remove.length, true⟩

/-! Association-list facts used about the sweep; `Nodup` on the key list is
what Python's `dict` guarantees. -/

theorem keys_injective {l : List (String × FileRecord)}
    (h : (l.map Prod.fst).Nodup) {e e' : String × FileRecord}
    (he : e ∈ l) (he' : e' ∈ l) (hk : e.1 = e'.1) : e = e' := by
  induction l with
  | nil => cases he
  | cons a l ih =>
    rw [List.map_cons, List.nodup_cons] at h
    rcases List.mem_cons.1 he with hea | he
    · rcases List.mem_cons.1 he' with hea' | he'
      · rw [hea, hea']
      · exfalso
        apply h.1
        rw [← hea, hk]
        exact List.mem_map.2 ⟨e', he', rfl⟩
    · rcases List.mem_cons.1 he' with hea' | he'
      · exfalso
        apply h.1
        rw [← hea', ← hk]
        exact List.mem_map.2 ⟨e, he, rfl⟩
      · exact ih h.2 he he'

theorem eraseP_key_eq_filter {l : List (String × FileRecord)} (p : String)
    (h : (l.map Prod.fst).Nodup) :
    l.eraseP (fun e => e.1 == p) = l.filter (fun e => !(e.1 == p)) := by
  induction l with
  | nil => rfl
  | cons a l ih =>
    rw [List.map_cons, List.nodup_cons] at h
    by_cases ha : a.1 = p
    · have hb : (a.1 == p) = true := beq_iff_eq.2 ha
      rw [List.eraseP_cons, List.filter_cons, hb]
      simp only [cond_true, Bool.not_true]
      rw [if_neg (by decide)]
      symm
      refine List.filter_eq_self.2 fun x hx => ?_
      have hxp : x.1 ≠ p := fun hxp => h.1 (List.mem_map.2 ⟨x, hx, by rw [hxp, ha]⟩)
      simpa using hxp
    · have hb : (a.1 == p) = false := beq_eq_false_iff_ne.2 ha
      rw [List.eraseP_cons, List.filter_cons, hb]
      simp only [cond_false, Bool.not_false]
      rw [if_pos trivial, ih h.2]

theorem nodup_keys_filter {l : List (String × FileRecord)} (q : String × FileRecord → Bool)
    (h : (l.map Prod.fst).Nodup) : ((l.filter q).map Prod.fst).Nodup :=
  ((List.filter_sublist l).map Prod.fst).nodup h

theorem foldl_eraseP_eq_filter (pins : List String) (l : List (String × FileRecord))
    (h : (l.map Prod.fst).Nodup) :
    pins.foldl (fun m pin => m.eraseP (fun e => e.1 == pin)) l
      = l.filter (fun e => !(pins.contains e.1)) := by
  induction pins generalizing l with
  | nil => simp
  | cons p pins ih =>
    rw [List.foldl_cons, eraseP_key_eq_filter p h,
      ih _ (nodup_keys_filter _ h), List.filter_filter]
    refine List.filter_congr fun e _ => ?_
    rw [List.contains_cons]
    cases hep : e.1 == p <;> cases hmem : pins.contains e.1 <;> simp [hep, hmem]

theorem contains_iff_mem {l : List String} {a : String} : l.contains a = true ↔ a ∈ l :=
  List.elem_iff

theorem lookup_filter_not_contains {ps : List String} {k : String}
    (l : List (String × List Nat)) (hk : k ∈ ps) :
    List.lookup k (l.filter (fun b => !(ps.contains b.1))) = none := by
  induction l with
  | nil => rfl
  | cons b l ih =>
    rw [List.filter_cons]
    by_cases hb : ps.contains b.1 = true
    · rw [hb]
      simp only [Bool.not_true]
      rw [if_neg (by decide)]
      exact ih
    · have hb' : ps.contains b.1 = false := by
        revert hb; cases ps.contains b.1 <;> simp
      rw [hb']
      simp only [Bool.not_false]
      rw [if_pos trivial, List.lookup_cons]
      have hne : (k == b.1) = false :=
        beq_eq_false_iff_ne.2 fun hkb => hb (contains_iff_mem.2 (hkb ▸ hk))
      rw [hne]
      exact ih

theorem expired_pins_contains {now : Int} {l : List (String × FileRecord)}
    (h : (l.map Prod.fst).Nodup) {e : String × FileRecord} (he : e ∈ l) :
    ((l.filter (fun x => expired now x.2)).map Prod.fst).contains e.1 = expired now e.2 := by
  by_cases hx : expired now e.2 = true
  · rw [hx]
    exact contains_iff_mem.2 (List.mem_map.2 ⟨e, List.mem_filter.2 ⟨he, hx⟩, rfl⟩)
  · have hx' : expired now e.2 = false := by
      revert hx; cases expired now e.2 <;> simp
    rw [hx']
    cases hc : ((l.filter (fun x => expired now x.2)).map Prod.fst).contains e.1
    · rfl
    · exfalso
      obtain ⟨e', he', hfst⟩ := List.mem_map.1 (contains_iff_mem.1 hc)
      have he'l := (List.mem_filter.1 he').1
      have hexp := (List.mem_filter.1 he').2
      rw [keys_injective h he'l he hfst] at hexp
      exact hx hexp

theorem cleanup_removed (now : Int) (s : SvcState) :
    (cleanup_old_files now s).removed
      = (s.meta.filter (fun e => expired now e.2)).length := by
  unfold cleanup_old_files
  dsimp only
  split <;> simp [List.length_map]

theorem cleanup_saved (now : Int) (s : SvcState) :
    (cleanup_old_files now s).savedTable
      = !(s.meta.filter (fun e => expired now e.2)).isEmpty := by
  unfold cleanup_old_files
  dsimp only
  split
  · next h =>
    have : (s.meta.filter (fun e => expired now e.2)).map Prod.fst = [] :=
      List.isEmpty_iff.1 h
    rw [List.map_eq_nil_iff] at this
    simp [this]
  · next h =>
    have hne : s.meta.filter (fun e => expired now e.2) ≠ [] := by
      intro hnil
      exact h (by rw [hnil]; rfl)
    have : (s.meta.filter (fun e => expired now e.2)).isEmpty = false := by
      revert hne
      cases s.meta.filter (fun e => expired now e.2) <;> simp
    simp [this]

theorem cleanup_fs (now : Int) (s : SvcState) :
    (cleanup_old_files now s).state.fs
      = s.fs.filter (fun b =>
          !(((s.meta.filter (fun e => expired now e.2)).map
              (fun e => e.2.filepath)).contains b.1)) := by
  unfold cleanup_old_files
  dsimp only
  split <;> rfl

theorem cleanup_meta (now : Int) (s : SvcState) (h : (s.meta.map Prod.fst).Nodup) :
    (cleanup_old_files now s).state.meta
      = s.meta.filter (fun e => !(expired now e.2)) := by
  unfold cleanup_old_files
  dsimp only
  split
  · next hemp =>
    have hnil : (s.meta.filter (fun e => expired now e.2)).map Prod.fst = [] :=
      List.isEmpty_iff.1 hemp
    rw [List.map_eq_nil_iff] at hnil
    have hall : ∀ e ∈ s.meta, expired now e.2 = false := by
      intro e he
      cases hx : expired now e.2
      · rfl
      · exact absurd (List.mem_filter.2 ⟨he, hx⟩) (by rw [hnil]; exact List.not_mem_nil e)
    symm
    refine List.filter_eq_self.2 fun e he => ?_
    rw [hall e he]
    rfl
  · next hemp =>
    rw [foldl_eraseP_eq_filter _ _ h]
    exact List.filter_congr fun e he => by rw [expired_pins_contains h he]

/-! ## Timestamp serialization (`save_file_metadata` lines 43–58,
`load_file_metadata` lines 27–41)

On save, each record's `upload_time` (a naive `datetime`) is replaced by
`upload_time.isoformat()`: the string `YYYY-MM-DDTHH:MM:SS`, followed by
`.ffffff` exactly when the microsecond field is nonzero. On load, the string
is turned back via `datetime.fromisoformat`. The broken-down naive datetime
and both directions of the conversion are embedded (digit strings as
`List Char`); the JSON layer itself moves strings unchanged. -/

/-- A naive Python `datetime` value, broken into its fields. -/
structure PyDateTime where
  year : Nat
  month : Nat
  day : Nat
  hour : Nat
  minute : Nat
  second : Nat
  microsecond : Nat
deriving DecidableEq

/-- The field bounds every real `datetime` satisfies (and which make the
fixed-width rendering faithful). -/
def PyDateTime.wf (t : PyDateTime) : Prop :=
  t.year < 10000 ∧ t.month < 100 ∧ t.day < 100 ∧ t.hour < 100 ∧
    t.minute < 100 ∧ t.second < 100 ∧ t.microsecond < 1000000

instance (t : PyDateTime) : Decidable t.wf := by
  unfold PyDateTime.wf
  infer_instance

/-- Python `datetime.isoformat()`: `YYYY-MM-DDTHH:MM:SS[.ffffff]`, microseconds
omitted exactly when zero. -/
def isoformat (t : PyDateTime) : List Char :=
  padNum 4 t.year ++ '-' :: padNum 2 t.month ++ '-' :: padNum 2 t.day ++
    'T' :: padNum 2 t.hour ++ ':' :: padNum 2 t.minute ++ ':' :: padNum 2 t.second ++
    (if t.microsecond == 0 then [] else '.' :: padNum 6 t.microsecond)

/-- Python `datetime.fromisoformat` on the shapes `isoformat` emits; `none` on any
other shape. -/
def fromisoformat (cs : List Char) : Option PyDateTime :=
  let (y, r1) := cs.splitAt 4
  match r1 with
  | '-' :: r2 =>
    let (mo, r3) := r2.splitAt 2
    match r3 with
    | '-' :: r4 =>
      let (d, r5) := r4.splitAt 2
      match r5 with
      | 'T' :: r6 =>
        let (h, r7) := r6.splitAt 2
        match r7 with
        | ':' :: r8 =>
          let (mi, r9) := r8.splitAt 2
          match r9 with
          | ':' :: r10 =>
            let (sec, r11) := r10.splitAt 2
            match r11 with
            | [] => some ⟨parseNum y, parseNum mo, parseNum d, parseNum h,
                parseNum mi, parseNum sec, 0⟩
            | '.' :: us => some ⟨parseNum y, parseNum mo, parseNum d, parseNum h,
                parseNum mi, parseNum sec, parseNum us⟩
            | _ => none
          | _ => none
        | _ => none
      | _ => none
    | _ => none
  | _ => none

theorem splitAt_padNum {w n : Nat} (rest : List Char) :
    (padNum w n ++ rest).splitAt w = (padNum w n, rest) := by
  rw [List.splitAt_eq, List.take_left' (padNum_length w n),
    List.drop_left' (padNum_length w n)]

theorem splitAt_padNum_nil {w n : Nat} :
    (padNum w n).splitAt w = (padNum w n, []) := by
  have := splitAt_padNum (w := w) (n := n) []
  simpa using this

/-- Timestamps round-trip exactly through `isoformat`/`fromisoformat`. -/
theorem fromisoformat_isoformat {t : PyDateTime} (h : t.wf) :
    fromisoformat (isoformat t) = some t := by
  obtain ⟨y, mo, d, hr, mi, sec, us⟩ := t
  obtain ⟨hy, hmo, hd, hh, hmi, hs, hus⟩ := h
  have hy' : y < 10 ^ 4 := by rw [show (10 : Nat) ^ 4 = 10000 by norm_num]; exact hy
  have hmo' : mo < 10 ^ 2 := by rw [show (10 : Nat) ^ 2 = 100 by norm_num]; exact hmo
  have hd' : d < 10 ^ 2 := by rw [show (10 : Nat) ^ 2 = 100 by norm_num]; exact hd
  have hh' : hr < 10 ^ 2 := by rw [show (10 : Nat) ^ 2 = 100 by norm_num]; exact hh
  have hmi' : mi < 10 ^ 2 := by rw [show (10 : Nat) ^ 2 = 100 by norm_num]; exact hmi
  have hs' : sec < 10 ^ 2 := by rw [show (10 : Nat) ^ 2 = 100 by norm_num]; exact hs
  have hus' : us < 10 ^ 6 := by rw [show (10 : Nat) ^ 6 = 1000000 by norm_num]; exact hus
  by_cases hzero : us = 0
  · subst hzero
    have e1 : isoformat ⟨y, mo, d, hr, mi, sec, 0⟩ =
        padNum 4 y ++ '-' :: (padNum 2 mo ++ '-' :: (padNum 2 d ++ 'T' ::
          (padNum 2 hr ++ ':' :: (padNum 2 mi ++ ':' :: padNum 2 sec)))) := by
      simp [isoformat, List.cons_append, List.append_assoc]
    rw [e1]
    simp only [fromisoformat, splitAt_padNum, splitAt_padNum_nil]
    rw [parseNum_padNum hy', parseNum_padNum hmo', parseNum_padNum hd',
      parseNum_padNum hh', parseNum_padNum hmi', parseNum_padNum hs']
  · have hne : (us == 0) = false := by
      revert hzero; cases hb : us == 0 <;> simp_all
    have e1 : isoformat ⟨y, mo, d, hr, mi, sec, us⟩ =
        padNum 4 y ++ '-' :: (padNum 2 mo ++ '-' :: (padNum 2 d ++ 'T' ::
          (padNum 2 hr ++ ':' :: (padNum 2 mi ++ ':' ::
            (padNum 2 sec ++ '.' :: padNum 6 us))))) := by
      simp [isoformat, hne, List.cons_append, List.append_assoc]
    rw [e1]
    simp only [fromisoformat, splitAt_padNum, splitAt_padNum_nil]
    rw [parseNum_padNum hy', parseNum_padNum hmo', parseNum_padNum hd',
      parseNum_padNum hh', parseNum_padNum hmi', parseNum_padNum hs',
      parseNum_padNum hus']

/-- A metadata record as held in memory by `app.py`: its `upload_time` is a
`datetime` object (lines 81–87 / line 36). -/
structure MetaRecord where
  filename : String
  filepath : String
  size : Nat
  upload_time : PyDateTime
  ftype : Option String
deriving DecidableEq

/-- A metadata record as written to `file_metadata.json`: `upload_time` is
the `isoformat` string (lines 49–53). -/
structure SerRecord where
  filename : String
  filepath : String
  size : Nat
  upload_time : List Char
  ftype : Option String
deriving DecidableEq

/-- Lines 49–53: `info.copy()` with `upload_time` replaced by its
`isoformat()` string. -/
def serializeRecord (r : MetaRecord) : SerRecord :=
  { filename := r.filename, filepath := r.filepath, size := r.size,
    upload_time := isoformat r.upload_time, ftype := r.ftype }

/-- Lines 34–36: `datetime.fromisoformat(info['upload_time'])`; `none` when
the stored string does not parse. -/
def deserializeRecord (r : SerRecord) : Option MetaRecord :=
  (fromisoformat r.upload_time).map fun ts =>
    { filename := r.filename, filepath := r.filepath, size := r.size,
      upload_time := ts, ftype := r.ftype }

/-- The serialization pass of `save_file_metadata` over the whole table
(lines 48–53). -/
def saveTable (m : List (String × MetaRecord)) : List (String × SerRecord) :=
  m.map fun e => (e.1, serializeRecord e.2)

/-- The conversion loop of `load_file_metadata` over the loaded JSON object
(lines 34–36); `none` when any stored timestamp fails to parse. -/
def loadTable : List (String × SerRecord) → Option (List (String × MetaRecord))
  | [] => some []
  | e :: rest =>
    match deserializeRecord e.2, loadTable rest with
    | some r, some rs => some ((e.1, r) :: rs)
    | _, _ => none

/-! ## Metadata-save failure handling (`save_file_metadata`, lines 43–58)

```python
def save_file_metadata(metadata):
    try:
        with file_lock:
            ... serialize ...
            with open(METADATA_FILE, 'w') as f:
                json.dump(serializable_data, f, indent=2)
    except Exception as e:
        st.error(f"Error saving metadata: {e}")
```

The I/O outcome of the `open`/`json.dump` is a parameter `writeOk`. What the
embedding records: the exception propagated to the caller (if any), the
`st.error` messages displayed, and what was persisted. -/

/-- Observable result of one `save_file_metadata(metadata)` call. -/
structure SaveOutcome where
  raised : Option String
  displayed : List String
  persisted : Option (List (String × SerRecord))
deriving DecidableEq

/-- Embedding of `save_file_metadata` with the write's success or failure made explicit:
on failure the `except` clause catches the exception and displays an error,
and the function returns normally. -/
def save_file_metadata_eff (writeOk : Bool) (metadata : List (String × MetaRecord)) :
    SaveOutcome :=
  if writeOk then
    { raised := none, displayed := [], persisted := some (saveTable metadata) }
  else
    { raised := none, displayed := ["Error saving metadata"], persisted := none }

/-- The claim formalised as stated: a failing save reports a StoreError to
the caller (an exception reaches the caller rather than being swallowed). -/
def reportsSaveFailureToCaller (metadata : List (String × MetaRecord)) : Prop :=
  (save_file_metadata_eff false metadata).raised ≠ none

/-! ## Two concurrent uploads (`generate_pin` + `save_file_with_pin`)

The upload loop (lines 197–206) runs `pin = generate_pin()` and then
`save_file_with_pin(file, pin)` for each file. `file_lock` is held only
inside `save_file_metadata`, so PIN allocation and the metadata save are
separate atomic steps. Two request handlers interleave over the shared
persisted state; a schedule picks which handler performs its next step. -/

/-- The two steps of one registration, at the atomicity the lock gives. -/
inductive RegStep where
  | allocStep
  | saveStep
deriving DecidableEq

/-- One request handler mid-registration: its remaining steps, the PIN it
allocated (if any), and its file. -/
structure ThreadState where
  steps : List RegStep
  pin : Option String
  file : UploadedFile
deriving DecidableEq

/-- Two handlers over the shared state. -/
structure ConcState where
  shared : SvcState
  t1 : ThreadState
  t2 : ThreadState
deriving DecidableEq

/-- Run one thread's next step against the shared state. -/
def stepThread (stream : Nat → Nat) (fuel : Nat) (now : Int)
    (sh : SvcState) (t : ThreadState) : SvcState × ThreadState :=
  match t.steps with
  | [] => (sh, t)
  | RegStep.allocStep :: rest =>
    (sh, { t with steps := rest, pin := generate_pin stream sh.meta fuel })
  | RegStep.saveStep :: rest =>
    match t.pin with
    | some p => ((save_file_with_pin sh t.file p now).1, { t with steps := rest })
    | none => (sh, { t with steps := rest })

/-- Run a schedule: `true` steps handler 1, `false` steps handler 2. -/
def runSchedule (stream : Nat → Nat) (fuel : Nat) (now : Int) :
    List Bool → ConcState → ConcState
  | [], c => c
  | pick :: rest, c =>
    let c' :=
      if pick then
        let (sh, t) := stepThread stream fuel now c.shared c.t1
        { c with shared := sh, t1 := t }
      else
        let (sh, t) := stepThread stream fuel now c.shared c.t2
        { c with shared := sh, t2 := t }
    runSchedule stream fuel now rest c'

/-- A registration about to start. -/
def freshThread (file : UploadedFile) : ThreadState :=
  ⟨[RegStep.allocStep, RegStep.saveStep], none, file⟩

/-! ## Claim theorems -/

theorem lookup_isSome_of_mem_keys {l : List (String × FileRecord)} {k : String}
    (h : k ∈ l.map Prod.fst) : (List.lookup k l).isSome = true := by
  induction l with
  | nil => simp at h
  | cons e l ih =>
    rw [List.map_cons, List.mem_cons] at h
    rw [List.lookup_cons]
    rcases h with h | h
    · have : (k == e.1) = true := beq_iff_eq.2 h
      rw [this]
      rfl
    · cases hkb : k == e.1
      · simpa using ih h
      · simp

/-- A metadata table holding a record under every PIN the allocator can ever
draw (the decimal renderings of 1000–9999). -/
def fullPinTable : List (String × FileRecord) :=
  (List.range' 1000 9000).map fun n => (decimalRepr n, ⟨"", "", 0, 0, none⟩)

/-- C3 (amended): `generate_pin` draws its candidates uniformly via
`random.randint(1000, 9999)` — the 9000-value space "1000"–"9999", with no
leading zeros — and any PIN it returns is a 4-ASCII-digit string that was
absent from the metadata table at call time. -/
theorem allocator_returns_fresh_four_digit_pin (stream : Nat → Nat)
    (metadata : List (String × FileRecord)) (fuel : Nat) (pin : String)
    (h : generate_pin stream metadata fuel = some pin) :
    (∃ n, 1000 ≤ n ∧ n ≤ 9999 ∧ pin = decimalRepr n) ∧
      pin.data.length = 4 ∧ pin.data.all Char.isDigit = true ∧
      List.lookup pin metadata = none :=
  generate_pin_sound stream metadata fuel pin h

theorem allocator_returns_fresh_four_digit_pin_witness :
    generate_pin (fun _ => 0) ([] : List (String × FileRecord)) 1 = some "1000" ∧
      ((∃ n, 1000 ≤ n ∧ n ≤ 9999 ∧ "1000" = decimalRepr n) ∧
        "1000".data.length = 4 ∧ "1000".data.all Char.isDigit = true ∧
        List.lookup "1000" ([] : List (String × FileRecord)) = none) :=
  ⟨by decide,
    allocator_returns_fresh_four_digit_pin (fun _ => 0) [] 1 "1000" (by decide)⟩

/-- C3 counterexample: "0000" is a 4-ASCII-digit PIN (the claimed candidate
space "0000"–"9999" contains it), but the code's candidate space — the
strings `f"{random.randint(1000, 9999)}"` can produce — does not contain it:
the allocator draws from 9000 values, not 10000. -/
theorem pin_space_missing_leading_zeros :
    isFourAsciiDigits "0000" = true ∧ "0000" ∉ pinCandidateSpace := by
  constructor
  · decide
  · intro hmem
    obtain ⟨n, hn, hrepr⟩ := List.mem_map.1 hmem
    have hb := List.mem_range'_1.1 hn
    exact decimalRepr_four_head (by omega) (by omega) hrepr

/-- C4: on a table in which every candidate PIN is taken, `generate_pin`
returns within no iteration bound, for any randomness: the `while True`
loop at lines 63–66 never terminates, and no PinSpaceExhausted error path
exists in the code. -/
theorem generate_pin_exhausted_never_returns (stream : Nat → Nat) (fuel : Nat) :
    generate_pin stream fullPinTable fuel = none := by
  induction fuel generalizing stream with
  | zero => rfl
  | succ fuel ih =>
    rw [generate_pin]
    have hmem : decimalRepr (randintCandidate (stream 0)) ∈ fullPinTable.map Prod.fst := by
      have h1 := randintCandidate_lb (stream 0)
      have h2 := randintCandidate_ub (stream 0)
      have hr : randintCandidate (stream 0) ∈ List.range' 1000 9000 :=
        List.mem_range'_1.2 ⟨h1, by omega⟩
      unfold fullPinTable
      rw [List.map_map]
      exact List.mem_map.2 ⟨_, hr, rfl⟩
    have hsome := lookup_isSome_of_mem_keys hmem
    have hfalse :
        (List.lookup (decimalRepr (randintCandidate (stream 0))) fullPinTable).isNone
          = false := by
      cases hl : List.lookup (decimalRepr (randintCandidate (stream 0))) fullPinTable
      · rw [hl] at hsome; simp at hsome
      · rfl
    simp only [hfalse]
    rw [if_neg (by decide)]
    exact ih _

/-- The run exhibiting the PIN race: two uploads, both RNG draws yielding
1234, schedule: handler 1 allocates, handler 2 allocates, handler 1 saves,
handler 2 saves. -/
def raceFinal : ConcState :=
  runSchedule (fun _ => 234) 1 0 [true, false, true, false]
    ⟨⟨[], []⟩, freshThread ⟨"a.txt", [1], 1, none⟩, freshThread ⟨"b.txt", [2], 1, none⟩⟩

/-- C5: the code keeps `file_lock` only around the metadata write, not
around allocation-plus-save, so this interleaving lets both registrations
complete successfully with the same PIN "1234" — the uniqueness invariant
fails under concurrency. -/
theorem concurrent_uploads_same_pin :
    raceFinal.t1.pin = some "1234" ∧ raceFinal.t2.pin = some "1234" ∧
      raceFinal.t1.steps = [] ∧ raceFinal.t2.steps = [] ∧
      raceFinal.shared.meta.map Prod.fst = ["1234"] := by decide

/-- C6 (amended): every input failing the code's own check
`len(pin_input) == 4 and pin_input.isdigit()` — in particular `"12"`,
`"12a4"`, `""` and `"99999"` — is rejected with a warning before any
metadata access: the store is neither read nor written and the state is
unchanged. (The code's check is Python's Unicode-aware `isdigit`, not an
ASCII-digit check; see the counterexample.) -/
theorem malformed_pin_rejected_without_store_access (pin : String) (s : SvcState)
    (h : pinShapeValid pin = false) :
    download_tab pin s = ⟨Outcome.malformed, s, []⟩ := by
  unfold download_tab
  simp [h]

theorem malformed_pin_rejected_without_store_access_witness :
    pinShapeValid "12a4" = false ∧
      download_tab "12a4" ⟨[], []⟩ = ⟨Outcome.malformed, ⟨[], []⟩, []⟩ :=
  ⟨by decide, malformed_pin_rejected_without_store_access "12a4" ⟨[], []⟩ (by decide)⟩

/-- C6 counterexample: `"١١١١"` (four Arabic-Indic digits U+0661) is not a
string of 4 ASCII digits, yet `len == 4 and isdigit()` accepts it, so the
code performs a metadata lookup for it instead of rejecting it. -/
theorem unicode_digit_pin_reaches_store :
    isFourAsciiDigits "١١١١" = false ∧
      pinShapeValid "١١١١" = true ∧
      (download_tab "١١١١" ⟨[], []⟩).storeOps = [StoreOp.loadOp] := by decide

theorem lookup_filter_key_ne (l : List (String × FileRecord)) (k : String) :
    List.lookup k (l.filter fun e => !(e.1 == k)) = none := by
  induction l with
  | nil => rfl
  | cons e l ih =>
    rw [List.filter_cons]
    cases he : e.1 == k
    · have hke : (k == e.1) = false :=
        beq_eq_false_iff_ne.2 fun hh => (beq_eq_false_iff_ne.1 he) hh.symm
      simp only [he, Bool.not_false]
      rw [if_pos trivial, List.lookup_cons, hke]
      exact ih
    · simp only [he, Bool.not_true]
      rw [if_neg (by decide)]
      exact ih

/-- C7: a well-formed PIN whose record is in the table but whose blob is
missing from disk: the download tab reports the file gone (an Absent
outcome), and as a side effect deletes the stale metadata entry and saves
the table. -/
theorem missing_blob_purges_stale_entry (s : SvcState) (pin : String)
    (info : FileRecord)
    (hshape : pinShapeValid pin = true)
    (hlook : List.lookup pin s.meta = some info)
    (hblob : List.lookup info.filepath s.fs = none)
    (hnodup : (s.meta.map Prod.fst).Nodup) :
    (download_tab pin s).outcome.isAbsent = true ∧
      (download_tab pin s).state.meta = s.meta.eraseP (fun e => e.1 == pin) ∧
      List.lookup pin (download_tab pin s).state.meta = none ∧
      (download_tab pin s).storeOps = [StoreOp.loadOp, StoreOp.loadOp, StoreOp.saveOp] := by
  have hres : download_tab pin s =
      ⟨.notOnDisk, ⟨s.fs, s.meta.eraseP (fun e => e.1 == pin)⟩,
        [.loadOp, .loadOp, .saveOp]⟩ := by
    unfold download_tab
    rw [if_pos hshape, hlook]
    dsimp only
    rw [hblob]
    dsimp only
    rw [hlook]
    rfl
  rw [hres]
  refine ⟨rfl, rfl, ?_, rfl⟩
  show List.lookup pin (s.meta.eraseP (fun e => e.1 == pin)) = none
  rw [eraseP_key_eq_filter pin hnodup]
  exact lookup_filter_key_ne s.meta pin

/-- The stale state for the C7 witness: a record under "1234" whose blob
path is absent from the blob store. -/
def demoStaleState : SvcState :=
  ⟨[], [("1234", ⟨"a.txt", "1234_a.txt", 3, 0, none⟩)]⟩

theorem missing_blob_purges_stale_entry_witness :
    (download_tab "1234" demoStaleState).outcome.isAbsent = true ∧
      (download_tab "1234" demoStaleState).state.meta
        = demoStaleState.meta.eraseP (fun e => e.1 == "1234") ∧
      List.lookup "1234" (download_tab "1234" demoStaleState).state.meta = none ∧
      (download_tab "1234" demoStaleState).storeOps
        = [StoreOp.loadOp, StoreOp.loadOp, StoreOp.saveOp] :=
  missing_blob_purges_stale_entry demoStaleState "1234" ⟨"a.txt", "1234_a.txt", 3, 0, none⟩
    (by decide) (by decide) (by decide) (by decide)

theorem pinShapeValid_of_ascii {s : String} (hlen : s.data.length = 4)
    (hdig : s.data.all Char.isDigit = true) : pinShapeValid s = true := by
  unfold pinShapeValid pyStrIsDigit
  have hne : s.data.isEmpty = false := by
    cases hd : s.data with
    | nil => rw [hd] at hlen; simp at hlen
    | cons c cs => rfl
  have hall : s.data.all pyIsDigit = true := by
    rw [List.all_eq_true] at hdig ⊢
    intro c hc
    have hcd := hdig c hc
    unfold pyIsDigit
    rw [hcd]
    rfl
  simp [hlen, hne, hall]

theorem save_file_with_pin_state (s : SvcState) (file : UploadedFile)
    (pin : String) (now : Int) :
    (save_file_with_pin s file pin now).1
      = ⟨dictInsert (pin ++ "_" ++ file.name) file.content s.fs,
         dictInsert pin
           ⟨file.name, pin ++ "_" ++ file.name, file.size, now, file.ftype⟩ s.meta⟩ := rfl

/-- C1: registering a payload (allocating a PIN, writing the bytes to the
blob path `{pin}_{name}`, recording the metadata under that PIN) and then
fetching by that same PIN through the download tab returns exactly the
original payload bytes. -/
theorem register_then_fetch_returns_payload (s : SvcState) (file : UploadedFile)
    (now : Int) (stream : Nat → Nat) (fuel : Nat) (pin : String)
    (h : generate_pin stream s.meta fuel = some pin) :
    (download_tab pin (save_file_with_pin s file pin now).1).outcome
      = Outcome.found file.content := by
  obtain ⟨⟨n, hn1, hn2, rfl⟩, hlen, hdig, hfree⟩ := generate_pin_sound _ _ _ _ h
  have hshape := pinShapeValid_of_ascii hlen hdig
  rw [save_file_with_pin_state]
  unfold download_tab
  rw [if_pos hshape]
  dsimp only
  rw [lookup_dictInsert_self]
  dsimp only
  rw [lookup_dictInsert_self]

theorem register_then_fetch_returns_payload_witness :
    generate_pin (fun _ => 234) ([] : List (String × FileRecord)) 1 = some "1234" ∧
      (download_tab "1234"
          (save_file_with_pin ⟨[], []⟩ ⟨"a.txt", [1, 2, 3], 3, none⟩ "1234" 0).1).outcome
        = Outcome.found [1, 2, 3] :=
  ⟨by decide,
    register_then_fetch_returns_payload ⟨[], []⟩ ⟨"a.txt", [1, 2, 3], 3, none⟩ 0
      (fun _ => 234) 1 "1234" (by decide)⟩

/-- C2: one sweep removes exactly the records strictly older than 24 hours,
returns their number, keeps the persisted table's live records, saves the
table back exactly when something was removed, deletes every expired
record's blob (a missing blob is not an error: deletion never fails in the
model, matching `except OSError: pass`), and leaves unrelated blobs in
place. -/
theorem cleanup_removes_exactly_expired (now : Int) (s : SvcState)
    (h : (s.meta.map Prod.fst).Nodup) :
    (cleanup_old_files now s).removed
        = (s.meta.filter (fun e => expired now e.2)).length ∧
      (cleanup_old_files now s).state.meta
        = s.meta.filter (fun e => !(expired now e.2)) ∧
      (cleanup_old_files now s).savedTable
        = !(s.meta.filter (fun e => expired now e.2)).isEmpty ∧
      (∀ e ∈ s.meta, expired now e.2 = true →
        List.lookup e.2.filepath (cleanup_old_files now s).state.fs = none) ∧
      (∀ b ∈ s.fs,
        b.1 ∉ (s.meta.filter (fun e => expired now e.2)).map (fun e => e.2.filepath) →
          b ∈ (cleanup_old_files now s).state.fs) := by
  refine ⟨cleanup_removed now s, cleanup_meta now s h, cleanup_saved now s, ?_, ?_⟩
  · intro e he hexp
    rw [cleanup_fs]
    exact lookup_filter_not_contains _
      (List.mem_map.2 ⟨e, List.mem_filter.2 ⟨he, hexp⟩, rfl⟩)
  · intro b hb hnot
    rw [cleanup_fs]
    refine List.mem_filter.2 ⟨hb, ?_⟩
    cases hc :
        ((s.meta.filter (fun e => expired now e.2)).map (fun e => e.2.filepath)).contains b.1
    · rfl
    · exact absurd (contains_iff_mem.1 hc) hnot

/-- The sweep witness state at `now` = 100 h (in microseconds): a record
uploaded 25 hours ago (expired) and one 23 hours ago (live), each with its
blob on disk. -/
def demoNow : Int := 360000000000

def demoSweepState : SvcState :=
  ⟨[("1000_old.txt", [7]), ("1001_new.txt", [8])],
   [("1000", ⟨"old.txt", "1000_old.txt", 1, 270000000000, none⟩),
    ("1001", ⟨"new.txt", "1001_new.txt", 1, 277200000000, none⟩)]⟩

theorem cleanup_removes_exactly_expired_witness :
    (demoSweepState.meta.map Prod.fst).Nodup ∧
      ((cleanup_old_files demoNow demoSweepState).removed
          = (demoSweepState.meta.filter (fun e => expired demoNow e.2)).length ∧
        (cleanup_old_files demoNow demoSweepState).state.meta
          = demoSweepState.meta.filter (fun e => !(expired demoNow e.2)) ∧
        (cleanup_old_files demoNow demoSweepState).savedTable
          = !(demoSweepState.meta.filter (fun e => expired demoNow e.2)).isEmpty ∧
        (∀ e ∈ demoSweepState.meta, expired demoNow e.2 = true →
          List.lookup e.2.filepath (cleanup_old_files demoNow demoSweepState).state.fs = none) ∧
        (∀ b ∈ demoSweepState.fs,
          b.1 ∉ (demoSweepState.meta.filter (fun e => expired demoNow e.2)).map
              (fun e => e.2.filepath) →
            b ∈ (cleanup_old_files demoNow demoSweepState).state.fs)) :=
  ⟨by decide, cleanup_removes_exactly_expired demoNow demoSweepState (by decide)⟩

/-- C10: running the sweep twice in succession (same instant, no uploads in
between) removes the expired records on the first call; the second call
removes nothing, returns 0, leaves the table as the first call left it, and
does not save. -/
theorem cleanup_twice_idempotent (now : Int) (s : SvcState)
    (h : (s.meta.map Prod.fst).Nodup) :
    (cleanup_old_files now (cleanup_old_files now s).state).removed = 0 ∧
      (cleanup_old_files now (cleanup_old_files now s).state).state.meta
        = (cleanup_old_files now s).state.meta ∧
      (cleanup_old_files now (cleanup_old_files now s).state).savedTable = false := by
  have h1 : (cleanup_old_files now s).state.meta
      = s.meta.filter (fun e => !(expired now e.2)) := cleanup_meta now s h
  have hnodup2 : ((cleanup_old_files now s).state.meta.map Prod.fst).Nodup := by
    rw [h1]; exact nodup_keys_filter _ h
  have hfilter_nil :
      (cleanup_old_files now s).state.meta.filter (fun e => expired now e.2) = [] := by
    rw [h1, List.filter_filter]
    rw [List.filter_congr (q := fun _ => false)
      (fun e _ => by cases expired now e.2 <;> rfl)]
    exact List.filter_false _
  refine ⟨?_, ?_, ?_⟩
  · rw [cleanup_removed, hfilter_nil]; rfl
  · rw [cleanup_meta now _ hnodup2, h1, List.filter_filter]
    exact List.filter_congr fun e _ => by cases expired now e.2 <;> rfl
  · rw [cleanup_saved, hfilter_nil]; rfl

theorem cleanup_twice_idempotent_witness :
    (demoSweepState.meta.map Prod.fst).Nodup ∧
      ((cleanup_old_files demoNow (cleanup_old_files demoNow demoSweepState).state).removed = 0 ∧
        (cleanup_old_files demoNow (cleanup_old_files demoNow demoSweepState).state).state.meta
          = (cleanup_old_files demoNow demoSweepState).state.meta ∧
        (cleanup_old_files demoNow
            (cleanup_old_files demoNow demoSweepState).state).savedTable = false) :=
  ⟨by decide, cleanup_twice_idempotent demoNow demoSweepState (by decide)⟩

/-- C8: serializing a metadata table (`save_file_metadata`) and parsing it
back (`load_file_metadata`) reproduces every record exactly — in particular
every `upload_time` timestamp round-trips with no precision loss. -/
theorem save_load_preserves_timestamps (m : List (String × MetaRecord))
    (h : ∀ e ∈ m, e.2.upload_time.wf) :
    loadTable (saveTable m) = some m := by
  induction m with
  | nil => rfl
  | cons e rest ih =>
    have hwf := h e (List.mem_cons_self e rest)
    have hrest := ih fun x hx => h x (List.mem_cons_of_mem _ hx)
    have hdeser : deserializeRecord (serializeRecord e.2) = some e.2 := by
      unfold deserializeRecord serializeRecord
      rw [fromisoformat_isoformat hwf]
      rfl
    show loadTable ((e.1, serializeRecord e.2) :: saveTable rest) = some (e :: rest)
    rw [loadTable, hdeser, hrest]

/-- The table for the C8 witness: the spec's `report.pdf` scenario plus a
record whose timestamp has zero microseconds (the isoformat shape with no
fractional part). -/
def demoMetaTable : List (String × MetaRecord) :=
  [("1234", ⟨"report.pdf", "1234_report.pdf", 1024,
      ⟨2026, 10, 12, 8, 30, 5, 123⟩, some "application/pdf"⟩),
   ("5678", ⟨"b.txt", "5678_b.txt", 2, ⟨2026, 10, 12, 9, 0, 0, 0⟩, none⟩)]

theorem save_load_preserves_timestamps_witness :
    (∀ e ∈ demoMetaTable, e.2.upload_time.wf) ∧
      loadTable (saveTable demoMetaTable) = some demoMetaTable :=
  ⟨by decide, save_load_preserves_timestamps demoMetaTable (by decide)⟩

/-- C9 (amended): a persistence failure during `save_file_metadata` is
caught by its `except` clause: the function displays an error message
itself and returns normally — no exception and no StoreError value reaches
the caller, nothing is persisted, and the caller cannot tell the save
failed. (The service does not crash, but the caller gets no say.) -/
theorem save_failure_swallowed (metadata : List (String × MetaRecord)) :
    (save_file_metadata_eff false metadata).raised = none ∧
      (save_file_metadata_eff false metadata).displayed = ["Error saving metadata"] ∧
      (save_file_metadata_eff false metadata).persisted = none :=
  ⟨rfl, rfl, rfl⟩

/-- C9 counterexample: at a concrete failing save (the write raises, table
empty), nothing reaches the caller — the claim that the failure is reported
to the caller as a StoreError is false — even though an error message is
displayed. -/
theorem save_failure_not_raised_to_caller :
    ¬ reportsSaveFailureToCaller [] ∧
      (save_file_metadata_eff false []).displayed ≠ [] := by
  constructor
  · intro hr
    exact hr rfl
  · decide
